import Mathlib

/-!
Verification of the dependency-graph builder in `main.py` of Regnskydd/jiradep.

The program fetches JIRA issues over REST, recursively walks their issue links
building a pygraphviz directed graph (`AGraph(strict=False, directed=True)`),
then runs annotation passes: epic-shape marking, optional epic-membership
expansion, and status coloring.  This file is a shallow embedding of that code:
JSON records become structures, the mutable pygraphviz graph becomes an explicit
`Graph` value threaded through each pass, the recursive `walk` becomes a
fuel-indexed recursion (the fuel is a modelling device; a theorem below shows
any fuel above the tracker's issue count is enough), and Python exceptions
become an explicit error outcome.
-/

set_option maxHeartbeats 1000000

namespace Jiradep

/-! ## Data model: the JSON fields of an issue that `main.py` reads -/

/-- The `status` object of an issue; only `name` is read
(`issue["fields"]["status"]["name"]`). -/
structure Status where
  name : String
  deriving DecidableEq, Repr

/-- The far end of a link record (`link["outwardIssue"]` / `link["inwardIssue"]`):
the code reads its `key` and its `fields.summary` (the one nesting level
`fields` is flattened away here). -/
structure LinkTarget where
  key : String
  summary : String
  deriving DecidableEq, Repr

/-- `link["type"]`; only the outward-direction phrase `outward` is read. -/
structure LinkType where
  outward : String
  deriving DecidableEq, Repr

/-- One entry of `issue["fields"]["issuelinks"]`.  The `outwardIssue` and
`inwardIssue` keys are optional in the JSON (`'outwardIssue' in link`), which
`Option` models. -/
structure Link where
  outwardIssue : Option LinkTarget
  inwardIssue : Option LinkTarget
  type : LinkType
  deriving DecidableEq, Repr

/-- `issue["fields"]`. `subtasks` is present in the tracker's JSON but never
read by the code. -/
structure IssueFields where
  summary : String
  status : Status
  issuelinks : List Link
  subtasks : List String
  deriving DecidableEq, Repr

/-- An issue as returned by `get_issue`. -/
structure Issue where
  key : String
  fields : IssueFields
  deriving DecidableEq, Repr

/-! ## The pygraphviz graph

The program builds an `AGraph(strict=False, directed=True)`: a directed graph
in which parallel edges are allowed.  Nodes are identified by their name
string; node and edge attributes are string-valued, `none` meaning the
attribute was never set. -/

/-- The node attributes the program ever sets. -/
structure NodeAttrs where
  style : Option String
  label : Option String
  penwidth : Option String
  fillcolor : Option String
  shape : Option String
  deriving DecidableEq, Repr

structure Node where
  name : String
  attrs : NodeAttrs
  deriving DecidableEq, Repr

/-- A directed edge with the attributes the program ever sets. -/
structure Edge where
  src : String
  tgt : String
  label : Option String
  color : Option String
  penwidth : Option String
  deriving DecidableEq, Repr

/-- The graph: insertion-ordered node and edge lists, plus the one graph
attribute the program sets (`graph.graph_attr['label']`). -/
structure Graph where
  graph_label : Option String
  nodes : List Node
  edges : List Edge
  deriving DecidableEq, Repr

/-- A node with no attributes set. -/
def emptyAttrs : NodeAttrs := ⟨none, none, none, none, none⟩

/-- Merge one attribute: an attribute passed to `add_node` overrides the stored
one; an attribute not passed (`none`) leaves the stored one unchanged. -/
def override (new old : Option String) : Option String :=
  match new with
  | some v => some v
  | none => old

/-- Merge an attribute update into existing node attributes. -/
def applyUpdate (old upd : NodeAttrs) : NodeAttrs :=
  ⟨override upd.style old.style, override upd.label old.label,
   override upd.penwidth old.penwidth, override upd.fillcolor old.fillcolor,
   override upd.shape old.shape⟩

def hasNode (g : Graph) (name : String) : Bool :=
  g.nodes.any (fun n => decide (n.name = name))

/-- pygraphviz `AGraph.add_node`: create the node if absent, otherwise set the
passed attributes on the existing node. -/
def add_node (g : Graph) (name : String) (upd : NodeAttrs) : Graph :=
  let set : Node → Node :=
    fun n => if n.name = name then { n with attrs := applyUpdate n.attrs upd } else n
  if hasNode g name then { g with nodes := g.nodes.map set }
  else { g with nodes := g.nodes ++ [⟨name, applyUpdate emptyAttrs upd⟩] }

/-- Create a node with no attributes if it is absent (what `add_edge` does to a
missing endpoint). -/
def ensure_node (g : Graph) (name : String) : Graph :=
  if hasNode g name then g else { g with nodes := g.nodes ++ [⟨name, emptyAttrs⟩] }

/-- pygraphviz `AGraph.add_edge` on a non-strict graph: missing endpoints are
created, and a new edge is appended even if one with the same endpoints
already exists (parallel edges are allowed). -/
def add_edge (g : Graph) (u v : String) (label color penwidth : Option String) : Graph :=
  let g1 := ensure_node (ensure_node g u) v
  { g1 with edges := g1.edges ++ [⟨u, v, label, color, penwidth⟩] }

/-- The Python membership test `(a, b) in graph.edges()`: true iff some edge of
the graph has exactly these endpoints in this order. -/
def hasEdge (g : Graph) (a b : String) : Bool :=
  g.edges.any (fun e => decide (e.src = a ∧ e.tgt = b))

/-- Number of edges from `a` to `b`. -/
def edgeCount (g : Graph) (a b : String) : Nat :=
  (g.edges.filter (fun e => decide (e.src = a ∧ e.tgt = b))).length

/-! ## The issue fetcher (`fetcher_factory` / `get_issue`, lines 22-37) -/

/-- An HTTP response to `GET /rest/agile/1.0/issue/<key>`, with the body kept
in already-parsed form (`json.loads` is outside the embedding). -/
structure HttpResponse where
  status_code : Nat
  body : Issue
  deriving DecidableEq, Repr

/-- Lines 32-36 of `main.py`: `get_issue` returns the parsed body on a 200
response and `None` on any other status code. -/
def get_issue (resp : HttpResponse) : Option Issue :=
  if resp.status_code = 200 then some resp.body else none

/-- The outcome of one `get_issue(key)` call as the walker observes it:
a parsed issue (HTTP 200), a `None` return (any non-200 status), or an
exception raised by the HTTP layer before a status was available. -/
inductive FetchR where
  | ok (issue : Issue)
  | notFound
  | raise
  deriving DecidableEq, Repr

def isOkF : FetchR → Bool
  | FetchR.ok _ => true
  | _ => false

/-- The tracker modelled as a finite issue table: fetching `k` answers the
stored issue when present and a non-200 (hence `None` from `get_issue`)
otherwise. -/
def fetchIssue (world : List Issue) (k : String) : FetchR :=
  match world.find? (fun i => decide (i.key = k)) with
  | some i => FetchR.ok i
  | none => FetchR.notFound

/-! ## The walker (`add_dependencies_to_graph` / `walk`, lines 39-79) -/

/-- The closure state of `add_dependencies_to_graph`: the graph being built and
the `seen` list, plus an instrumentation field `trace` recording every key
passed to `get_issue`, in call order. -/
structure WalkState where
  graph : Graph
  seen : List String
  trace : List String
  deriving DecidableEq, Repr

/-- How a walk ends: normal return, or a Python exception propagating out
(a raised fetch, or subscripting the `None` returned for a non-200 fetch). -/
inductive WalkOut where
  | ok (st : WalkState)
  | err (st : WalkState)
  deriving DecidableEq, Repr

/-- The state carried by either outcome. -/
def WalkOut.state : WalkOut → WalkState
  | WalkOut.ok st => st
  | WalkOut.err st => st

/-- Lines 62-66: the `'outwardIssue' in link` branch of the link loop. If no
edge `issueKey → target` exists yet, add the target node (filled style, key
plus summary label, penwidth 2.0), add the edge labelled with the link type's
outward phrase, and collect the target as a traversal child. -/
def processOutward (issueKey : String) (st : Graph × List String) (link : Link) :
    Graph × List String :=
  match link.outwardIssue with
  | none => st
  | some t =>
    if hasEdge st.1 issueKey t.key then st
    else
      (add_edge
         (add_node st.1 t.key
           ⟨some "filled", some (t.key ++ "\n" ++ t.summary), some "2.0", none, none⟩)
         issueKey t.key (some link.type.outward) none none,
       st.2 ++ [t.key])

/-- Lines 67-71: the `'inwardIssue' in link` branch.  The candidate edge runs
from the inward issue to the current issue, but the label is still the link
type's outward phrase (the JSON carries only that phrase). -/
def processInward (issueKey : String) (st : Graph × List String) (link : Link) :
    Graph × List String :=
  match link.inwardIssue with
  | none => st
  | some t =>
    if hasEdge st.1 t.key issueKey then st
    else
      (add_edge
         (add_node st.1 t.key
           ⟨some "filled", some (t.key ++ "\n" ++ t.summary), some "2.0", none, none⟩)
         t.key issueKey (some link.type.outward) none none,
       st.2 ++ [t.key])

/-- One iteration of the `for link in issue['fields']['issuelinks']` loop:
the outward branch, then the inward branch, on the updated graph. -/
def processLink (issueKey : String) (st : Graph × List String) (link : Link) :
    Graph × List String :=
  processInward issueKey (processOutward issueKey st link) link

/-- Lines 73-74, `for child in (x for x in children if x not in seen)`: walk
every collected child not yet seen, re-checking `seen` at each iteration (the
Python generator is lazy).  `walkF` is the recursive `walk` call; a `none`
from it (fuel exhaustion, a modelling artifact) or an error outcome stops the
loop and propagates. -/
def walkChildren (walkF : String → WalkState → Option WalkOut) (children : List String)
    (st : WalkState) : Option WalkOut :=
  match children with
  | [] => some (WalkOut.ok st)
  | c :: rest =>
    if c ∈ st.seen then walkChildren walkF rest st
    else
      match walkF c st with
      | none => none
      | some (WalkOut.err st') => some (WalkOut.err st')
      | some (WalkOut.ok st') => walkChildren walkF rest st'

/-- Lines 49-75, `walk(issue_key, graph)`: record the key in the fetch trace and
fetch it; a raised fetch re-raises (`except ... raise()`), a `None` issue
raises on `issue['fields']`; otherwise append the key to `seen` (before any
recursion), process the link list collecting children, and recurse into each
collected child not yet seen.  `fuel` bounds the recursion depth and is a
modelling device only: a theorem below shows any fuel above the tracker's
issue count changes nothing. -/
def walk (fetch : String → FetchR) : Nat → String → WalkState → Option WalkOut
  | 0, _, _ => none
  | Nat.succ fuel, issue_key, st =>
    let st1 : WalkState := { st with trace := st.trace ++ [issue_key] }
    match fetch issue_key with
    | FetchR.raise => some (WalkOut.err st1)
    | FetchR.notFound => some (WalkOut.err st1)
    | FetchR.ok issue =>
      let st2 : WalkState := { st1 with seen := st1.seen ++ [issue_key] }
      let gc := issue.fields.issuelinks.foldl (processLink issue.key) (st2.graph, [])
      walkChildren (fun c s => walk fetch fuel c s) gc.2 { st2 with graph := gc.1 }

/-- Lines 77-79: the walk starts from the first node of the graph
(`graph.nodes()[0]`; an empty graph would raise an `IndexError`, modelled as
`none`), with empty `seen`. -/
def add_dependencies_to_graph (fetch : String → FetchR) (fuel : Nat) (g : Graph) :
    Option WalkOut :=
  match g.nodes with
  | [] => none
  | n :: _ => walk fetch fuel n.name ⟨g, [], []⟩

/-! ## The annotation passes and the epic expander -/

/-- Lines 84-90, `update_shape_on_epics`: for every node probe
`GET /rest/agile/1.0/epic/<node>`; on a 200 set the node's shape to `folder`,
otherwise leave it as it is.  `probe` tells whether the response was a 200. -/
def update_shape_on_epics (probe : String → Bool) (g : Graph) : Graph :=
  let mark : Node → Node :=
    fun n => if probe n.name then { n with attrs := { n.attrs with shape := some "folder" } } else n
  { g with nodes := g.nodes.map mark }

/-- The payload of `GET /rest/agile/1.0/epic/<key>/issue`: the list under its
`"issues"` key (only each member's `key` is read). -/
structure EpicPayload where
  issues : List Issue
  deriving DecidableEq, Repr

/-- The comparison inside the guard on line 106 of `main.py`,
`if(issue["key"]) not in graph.edges()`: it asks whether the key STRING is an
element of the edge list.  In Python a `str` never compares equal to a
pygraphviz edge (a pair of endpoint names), so each elementwise comparison is
`False`. -/
def pyStrEqEdge (_k : String) (_e : Edge) : Bool := false

/-- `issue["key"] in graph.edges()` as Python evaluates it. -/
def keyInEdges (k : String) (es : List Edge) : Bool := es.any (pyStrEqEdge k)

/-- Lines 104-110, `add_issues_to_graph`: for every issue of the epic payload,
if the guard passes (see `pyStrEqEdge`) add the node (filled, penwidth 2.0)
and a blue membership edge from the epic key to it. -/
def add_issues_to_graph (graph : Graph) (epic : EpicPayload) (epic_key : String) : Graph :=
  epic.issues.foldl
    (fun g issue =>
      if keyInEdges issue.key g.edges then g
      else
        add_edge (add_node g issue.key ⟨some "filled", none, some "2.0", none, none⟩)
          epic_key issue.key none (some "blue") (some "0.5"))
    graph

/-- Lines 122-127: the `if`/`elif` chain mapping a status name to a fill color;
any other status name leaves the node's attributes unchanged. -/
def applyProgress (statusName : String) (a : NodeAttrs) : NodeAttrs :=
  if statusName = "To Do" then { a with fillcolor := some "white" }
  else if statusName = "In Progress" then { a with fillcolor := some "yellow" }
  else if statusName = "Done" then { a with fillcolor := some "green" }
  else a

/-- One iteration of the node loop of `update_graph_with_issue_progress`:
re-fetch the node's issue (a raised fetch re-raises, a `None` issue raises on
subscripting) and apply the status-to-color chain. -/
def progressNode (fetch : String → FetchR) (n : Node) : Option Node :=
  match fetch n.name with
  | FetchR.ok issue => some { n with attrs := applyProgress issue.fields.status.name n.attrs }
  | _ => none

/-- The node loop of `update_graph_with_issue_progress`, aborting the whole
pass when any fetch fails. -/
def progressNodes (fetch : String → FetchR) : List Node → Option (List Node)
  | [] => some []
  | n :: rest =>
    match progressNode fetch n with
    | none => none
    | some n' =>
      match progressNodes fetch rest with
      | none => none
      | some rest' => some (n' :: rest')

/-- Lines 113-129, `update_graph_with_issue_progress`. -/
def update_graph_with_issue_progress (fetch : String → FetchR) (g : Graph) : Option Graph :=
  (progressNodes fetch g.nodes).map (fun ns => { g with nodes := ns })

/-! ## The end-to-end run (`__main__`, lines 149-180) -/

/-- The attributes given to the start node on line 163. -/
def startAttrs : NodeAttrs := ⟨some "filled", none, some "2.0", none, some "folder"⟩

/-- Lines 160-177 of `main.py`: build the start graph (graph label, start node
with filled style, folder shape, penwidth 2.0), walk the dependencies, mark
epic shapes, optionally expand the start epic's membership (`--verbose`;
a non-200 membership response yields `None` and the subscription
`epic["issues"]` then raises), and color every node by status.  Rendering the
image is outside the embedding.  `world` is the tracker's issue table,
`probe` the epic existence probe, `epicResp` the membership response for the
start key.  Any propagating exception is `none`. -/
def main_run (world : List Issue) (probe : String → Bool) (epicResp : Option EpicPayload)
    (verbose : Bool) (start_issue_key : String) : Option Graph :=
  let g0 : Graph := ⟨some ("Dependency Graph for " ++ start_issue_key),
                     [⟨start_issue_key, startAttrs⟩], []⟩
  match add_dependencies_to_graph (fetchIssue world) (world.length + 1) g0 with
  | some (WalkOut.ok st) =>
    let g2 := update_shape_on_epics probe st.graph
    match (if verbose then epicResp.map (fun epic => add_issues_to_graph g2 epic start_issue_key)
           else some g2) with
    | none => none
    | some g3 => update_graph_with_issue_progress (fetchIssue world) g3
  | _ => none

/-! ## Concrete example data, used by witnesses and counterexamples -/

/-- An issue with no links and no subtasks. -/
def issueNoLinks (k s statusName : String) : Issue := ⟨k, ⟨s, ⟨statusName⟩, [], []⟩⟩

/-- A link record carrying only an outward target. -/
def outwardLink (k s ty : String) : Link := ⟨some ⟨k, s⟩, none, ⟨ty⟩⟩

/-- A link record carrying only an inward target. -/
def inwardLink (k s ty : String) : Link := ⟨none, some ⟨k, s⟩, ⟨ty⟩⟩

/-- A tracker with a 2-cycle: DEMO-1 blocks DEMO-2, DEMO-2 "is blocked by"
DEMO-1 (each side stored as an outward link). -/
def cycleWorld : List Issue :=
  [⟨"DEMO-1", ⟨"one", ⟨"To Do"⟩, [outwardLink "DEMO-2" "two" "blocks"], []⟩⟩,
   ⟨"DEMO-2", ⟨"two", ⟨"Done"⟩, [outwardLink "DEMO-1" "one" "is blocked by"], []⟩⟩]

/-- A tracker where epic DEMO-0 also links outward to its own member DEMO-1. -/
def dupWorld : List Issue :=
  [⟨"DEMO-0", ⟨"epic", ⟨"To Do"⟩, [outwardLink "DEMO-1" "one" "blocks"], []⟩⟩,
   issueNoLinks "DEMO-1" "one" "Done"]

/-- The membership payload of epic DEMO-0: the single issue DEMO-1. -/
def dupEpicPayload : EpicPayload := ⟨[issueNoLinks "DEMO-1" "one" "Done"]⟩

/-- A start graph as `__main__` creates it for start key DEMO-0. -/
def startGraphD0 : Graph := ⟨none, [⟨"DEMO-0", startAttrs⟩], []⟩

/-- A link record with both an outward target DEMO-B and an inward target
DEMO-C, of type "blocks". -/
def demoLink : Link := ⟨some ⟨"DEMO-B", "b"⟩, some ⟨"DEMO-C", "c"⟩, ⟨"blocks"⟩⟩

/-! ## Basic facts about the graph operations -/

theorem ensure_node_edges (g : Graph) (n : String) : (ensure_node g n).edges = g.edges := by
  unfold ensure_node; split <;> rfl

theorem add_node_edges (g : Graph) (n : String) (u : NodeAttrs) :
    (add_node g n u).edges = g.edges := by
  unfold add_node; split <;> rfl

theorem add_edge_edges (g : Graph) (u v : String) (l c p : Option String) :
    (add_edge g u v l c p).edges = g.edges ++ [⟨u, v, l, c, p⟩] := by
  simp only [add_edge]
  rw [ensure_node_edges, ensure_node_edges]

/-- `processInward` never removes an edge. -/
theorem processInward_edges_mono (issueKey : String) (st : Graph × List String) (l : Link)
    (e : Edge) (he : e ∈ st.1.edges) : e ∈ (processInward issueKey st l).1.edges := by
  rcases hli : l.inwardIssue with _ | t <;> simp only [processInward, hli]
  · exact he
  · split
    · exact he
    · rw [add_edge_edges, add_node_edges]
      exact List.mem_append_left _ he

/-- C3: for every link record processed by the Walker, an outward target `t` on
issue `issueKey` yields the directed edge `issueKey → t.key`, and an inward
target `t` yields the directed edge `t.key → issueKey`; in both cases the edge
label is the link type's outward-direction phrase. -/
theorem link_edges_direction_and_outward_label (issueKey : String) (g : Graph)
    (cs : List String) (l : Link) :
    (∀ t : LinkTarget, l.outwardIssue = some t → hasEdge g issueKey t.key = false →
      (⟨issueKey, t.key, some l.type.outward, none, none⟩ : Edge) ∈
        (processLink issueKey (g, cs) l).1.edges) ∧
    (∀ t : LinkTarget, l.inwardIssue = some t →
      hasEdge (processOutward issueKey (g, cs) l).1 t.key issueKey = false →
      (⟨t.key, issueKey, some l.type.outward, none, none⟩ : Edge) ∈
        (processLink issueKey (g, cs) l).1.edges) := by
  constructor
  · intro t ho hne
    unfold processLink
    apply processInward_edges_mono
    simp only [processOutward, ho, hne, Bool.false_eq_true, if_false]
    rw [add_edge_edges, add_node_edges]
    exact List.mem_append_right _ (by simp)
  · intro t hi hne
    unfold processLink
    simp only [processInward, hi, hne, Bool.false_eq_true, if_false]
    rw [add_edge_edges, add_node_edges]
    exact List.mem_append_right _ (by simp)

/-- Witness for C3 on a concrete link record of type "blocks" with outward
target DEMO-B and inward target DEMO-C, processed for issue DEMO-A on an empty
graph: both directed edges appear, both labelled "blocks". -/
theorem link_edges_direction_witness :
    (⟨"DEMO-A", "DEMO-B", some "blocks", none, none⟩ : Edge) ∈
      (processLink "DEMO-A" (⟨none, [], []⟩, []) demoLink).1.edges ∧
    (⟨"DEMO-C", "DEMO-A", some "blocks", none, none⟩ : Edge) ∈
      (processLink "DEMO-A" (⟨none, [], []⟩, []) demoLink).1.edges :=
  ⟨(link_edges_direction_and_outward_label "DEMO-A" ⟨none, [], []⟩ [] demoLink).1
      ⟨"DEMO-B", "b"⟩ rfl (by decide),
   (link_edges_direction_and_outward_label "DEMO-A" ⟨none, [], []⟩ [] demoLink).2
      ⟨"DEMO-C", "c"⟩ rfl (by decide)⟩

/-- C6 counterexample: `get_issue` returns the absent value for a 500 response
exactly as it does for a 404 — a non-200, non-404 status is NOT signalled as a
propagating failure, contrary to the claim. -/
theorem get_issue_returns_none_on_server_error :
    get_issue ⟨500, issueNoLinks "DEMO-1" "one" "To Do"⟩ = none ∧
    get_issue ⟨404, issueNoLinks "DEMO-1" "one" "To Do"⟩ = none := by decide

/-- C6 amended: `get_issue` returns the parsed issue exactly for an HTTP 200
response and the absent value (`None`) for EVERY other status, not-found or
not; no status is turned into a raised failure by the fetcher itself. -/
theorem get_issue_absent_iff_non_200 (resp : HttpResponse) :
    ((get_issue resp).isSome ↔ resp.status_code = 200) ∧
    (get_issue resp = none ↔ resp.status_code ≠ 200) ∧
    (∀ i : Issue, get_issue resp = some i → i = resp.body) := by
  unfold get_issue
  by_cases h : resp.status_code = 200 <;> simp [h]

/-- Witness for C6 amended at a 200 response. -/
theorem get_issue_absent_iff_non_200_witness :
    issueNoLinks "DEMO-1" "one" "Done" =
      (HttpResponse.mk 200 (issueNoLinks "DEMO-1" "one" "Done")).body :=
  (get_issue_absent_iff_non_200 ⟨200, issueNoLinks "DEMO-1" "one" "Done"⟩).2.2
    (issueNoLinks "DEMO-1" "one" "Done") rfl

/-! ## Status coloring (C7) -/

theorem applyProgress_idem (s : String) (a : NodeAttrs) :
    applyProgress s (applyProgress s a) = applyProgress s a := by
  unfold applyProgress
  by_cases h1 : s = "To Do" <;> by_cases h2 : s = "In Progress" <;>
    by_cases h3 : s = "Done" <;> simp [h1, h2, h3]

theorem progressNode_name (fetch : String → FetchR) (n n' : Node)
    (h : progressNode fetch n = some n') : n'.name = n.name := by
  unfold progressNode at h
  cases hf : fetch n.name <;> rw [hf] at h <;> simp at h
  rw [← h]

theorem progressNode_idem (fetch : String → FetchR) (n n' : Node)
    (h : progressNode fetch n = some n') : progressNode fetch n' = some n' := by
  unfold progressNode at h ⊢
  cases hf : fetch n.name <;> rw [hf] at h <;> simp at h
  subst h
  simp [hf, applyProgress_idem]

theorem progressNodes_idem (fetch : String → FetchR) :
    ∀ (l l' : List Node), progressNodes fetch l = some l' →
      progressNodes fetch l' = some l' := by
  intro l
  induction l with
  | nil =>
    intro l' h
    simp only [progressNodes] at h
    injection h with h
    subst h
    rfl
  | cons n rest ih =>
    intro l' h
    simp only [progressNodes] at h
    cases hn : progressNode fetch n <;> rw [hn] at h
    · exact absurd h (by simp)
    case some n' =>
      cases hr : progressNodes fetch rest <;> rw [hr] at h
      · exact absurd h (by simp)
      case some rest' =>
        injection h with h
        subst h
        simp only [progressNodes, progressNode_idem fetch n n' hn, ih rest' hr]

theorem progressNodes_names (fetch : String → FetchR) :
    ∀ (l l' : List Node), progressNodes fetch l = some l' →
      l'.map Node.name = l.map Node.name := by
  intro l
  induction l with
  | nil =>
    intro l' h
    simp only [progressNodes] at h
    injection h with h
    subst h
    rfl
  | cons n rest ih =>
    intro l' h
    simp only [progressNodes] at h
    cases hn : progressNode fetch n <;> rw [hn] at h
    · exact absurd h (by simp)
    case some n' =>
      cases hr : progressNodes fetch rest <;> rw [hr] at h
      · exact absurd h (by simp)
      case some rest' =>
        injection h with h
        subst h
        simp [progressNode_name fetch n n' hn, ih rest' hr]

/-- C7: the status-coloring chain maps the three known status names to white,
yellow and green respectively, on any node attributes; and the coloring pass
is idempotent: re-running it on its own successful output returns that output
unchanged. -/
theorem status_coloring_total_and_idempotent :
    (∀ a : NodeAttrs,
      applyProgress "To Do" a = { a with fillcolor := some "white" } ∧
      applyProgress "In Progress" a = { a with fillcolor := some "yellow" } ∧
      applyProgress "Done" a = { a with fillcolor := some "green" }) ∧
    (∀ (fetch : String → FetchR) (g g' : Graph),
      update_graph_with_issue_progress fetch g = some g' →
      update_graph_with_issue_progress fetch g' = some g') := by
  constructor
  · intro a
    refine ⟨?_, ?_, ?_⟩ <;> unfold applyProgress
    · rw [if_pos rfl]
    · rw [if_neg (by decide), if_pos rfl]
    · rw [if_neg (by decide), if_neg (by decide), if_pos rfl]
  · intro fetch g g' h
    unfold update_graph_with_issue_progress at h ⊢
    cases hp : progressNodes fetch g.nodes <;> rw [hp] at h
    · exact absurd h (by simp)
    case some ns =>
      simp only [Option.map_some'] at h
      injection h with h
      subst h
      simp only [progressNodes_idem fetch g.nodes ns hp, Option.map_some']

/-- Witness for C7 idempotence on a one-node graph whose issue is Done. -/
theorem status_coloring_witness :
    update_graph_with_issue_progress
      (fetchIssue [issueNoLinks "N1" "s" "Done"])
      ⟨none, [⟨"N1", { emptyAttrs with fillcolor := some "green" }⟩], []⟩ =
    some ⟨none, [⟨"N1", { emptyAttrs with fillcolor := some "green" }⟩], []⟩ :=
  status_coloring_total_and_idempotent.2 (fetchIssue [issueNoLinks "N1" "s" "Done"])
    ⟨none, [⟨"N1", emptyAttrs⟩], []⟩
    ⟨none, [⟨"N1", { emptyAttrs with fillcolor := some "green" }⟩], []⟩ (by decide)

/-! ## Frame property of the annotation passes (C10) -/

theorem mark_name (p : String → Bool) (n : Node) :
    (if p n.name then { n with attrs := { n.attrs with shape := some "folder" } } else n).name
      = n.name := by
  split <;> rfl

/-- C10: the epic-shape pass and the status-coloring pass write only node
attributes: each leaves the edge list exactly as it was and keeps exactly the
same nodes (same names, same order), adding and removing nothing. -/
theorem passes_touch_only_node_attrs :
    (∀ (p : String → Bool) (g : Graph),
      (update_shape_on_epics p g).edges = g.edges ∧
      (update_shape_on_epics p g).nodes.map Node.name = g.nodes.map Node.name) ∧
    (∀ (fetch : String → FetchR) (g g' : Graph),
      update_graph_with_issue_progress fetch g = some g' →
      g'.edges = g.edges ∧ g'.nodes.map Node.name = g.nodes.map Node.name) := by
  constructor
  · intro p g
    refine ⟨rfl, ?_⟩
    unfold update_shape_on_epics
    simp only [List.map_map]
    induction g.nodes with
    | nil => rfl
    | cons n rest ih => simp [mark_name, ih]
  · intro fetch g g' h
    unfold update_graph_with_issue_progress at h
    cases hp : progressNodes fetch g.nodes <;> rw [hp] at h
    · exact absurd h (by simp)
    case some ns =>
      simp only [Option.map_some'] at h
      injection h with h
      subst h
      exact ⟨rfl, progressNodes_names fetch g.nodes ns hp⟩

/-- Witness for C10 on a two-node, one-edge graph. -/
theorem passes_touch_only_node_attrs_witness :
    (⟨none, [⟨"N1", { emptyAttrs with fillcolor := some "green" }⟩], [⟨"N1", "N1", none, none, none⟩]⟩ : Graph).edges
        = (⟨none, [⟨"N1", emptyAttrs⟩], [⟨"N1", "N1", none, none, none⟩]⟩ : Graph).edges ∧
    (⟨none, [⟨"N1", { emptyAttrs with fillcolor := some "green" }⟩], [⟨"N1", "N1", none, none, none⟩]⟩ : Graph).nodes.map Node.name
        = (⟨none, [⟨"N1", emptyAttrs⟩], [⟨"N1", "N1", none, none, none⟩]⟩ : Graph).nodes.map Node.name :=
  passes_touch_only_node_attrs.2 (fetchIssue [issueNoLinks "N1" "s" "Done"])
    ⟨none, [⟨"N1", emptyAttrs⟩], [⟨"N1", "N1", none, none, none⟩]⟩
    ⟨none, [⟨"N1", { emptyAttrs with fillcolor := some "green" }⟩], [⟨"N1", "N1", none, none, none⟩]⟩
    (by decide)

/-! ## The expander's broken duplicate-edge guard (C1, C4) -/

/-- C1: the guard on line 106 compares the issue key against edge pairs, so it
always passes, and with the epic-expansion pass enabled the run on `dupWorld`
(where the walker has already added the edge DEMO-0 → DEMO-1) ends with TWO
edges DEMO-0 → DEMO-1; without that pass the walker alone keeps exactly one.
This contradicts the at-most-one-edge-per-ordered-pair invariant. -/
theorem duplicate_edge_after_expander_pass :
    (main_run dupWorld (fun _ => false) (some dupEpicPayload) true "DEMO-0").map
        (fun g => edgeCount g "DEMO-0" "DEMO-1") = some 2 ∧
    (main_run dupWorld (fun _ => false) (some dupEpicPayload) false "DEMO-0").map
        (fun g => edgeCount g "DEMO-0" "DEMO-1") = some 1 := by decide

/-- C4: the expander is not idempotent: with the guard of line 106 passing
vacuously, one run adds the membership edge DEMO-0 → DEMO-1 and a second run
on the same payload adds it again. -/
theorem expander_not_idempotent :
    edgeCount (add_issues_to_graph startGraphD0 dupEpicPayload "DEMO-0") "DEMO-0" "DEMO-1" = 1 ∧
    edgeCount (add_issues_to_graph (add_issues_to_graph startGraphD0 dupEpicPayload "DEMO-0")
        dupEpicPayload "DEMO-0") "DEMO-0" "DEMO-1" = 2 := by decide

/-! ## Walk invariants (towards C2 and C5) -/

/-- Every key in `l` had a successful fetch. -/
def okTrace (fetch : String → FetchR) (l : List String) : Prop :=
  ∀ x ∈ l, isOkF (fetch x) = true

/-- How a walk outcome extends its starting state: `seen` and the fetch trace
only grow; on a normal return every newly fetched key's fetch succeeded; on an
error the new fetches are a run of successes ending in the single failing
fetch that aborted the walk (nothing is fetched after a failure). -/
def Extends (fetch : String → FetchR) (st : WalkState) (r : WalkOut) : Prop :=
  (∃ sx, (WalkOut.state r).seen = st.seen ++ sx) ∧
  ∃ tx, (WalkOut.state r).trace = st.trace ++ tx ∧
    match r with
    | WalkOut.ok _ => okTrace fetch tx
    | WalkOut.err _ =>
      ∃ pre q, tx = pre ++ [q] ∧ okTrace fetch pre ∧ isOkF (fetch q) = false

theorem okTrace_nil (fetch : String → FetchR) : okTrace fetch [] := by
  intro x hx
  cases hx

theorem okTrace_append (fetch : String → FetchR) (a b : List String)
    (ha : okTrace fetch a) (hb : okTrace fetch b) : okTrace fetch (a ++ b) := by
  intro x hx
  rcases List.mem_append.mp hx with h | h
  · exact ha x h
  · exact hb x h

theorem extends_trans_ok (fetch : String → FetchR) (st st' : WalkState) (r : WalkOut)
    (h1 : Extends fetch st (WalkOut.ok st')) (h2 : Extends fetch st' r) :
    Extends fetch st r := by
  obtain ⟨⟨sx1, hs1⟩, tx1, ht1, hok1⟩ := h1
  obtain ⟨⟨sx2, hs2⟩, tx2, ht2, hm2⟩ := h2
  refine ⟨⟨sx1 ++ sx2, ?_⟩, tx1 ++ tx2, ?_, ?_⟩
  · rw [hs2]
    simp only [WalkOut.state] at hs1
    rw [hs1, List.append_assoc]
  · rw [ht2]
    simp only [WalkOut.state] at ht1
    rw [ht1, List.append_assoc]
  · cases r with
    | ok s => exact okTrace_append fetch tx1 tx2 hok1 hm2
    | err s =>
      obtain ⟨pre, q, he, hp, hq⟩ := hm2
      exact ⟨tx1 ++ pre, q, by rw [he, List.append_assoc],
        okTrace_append fetch tx1 pre hok1 hp, hq⟩

/-- The child loop preserves `Extends`, given that each recursive call does. -/
theorem walkChildren_extends (fetch : String → FetchR)
    (walkF : String → WalkState → Option WalkOut)
    (hw : ∀ c s r, walkF c s = some r → Extends fetch s r) :
    ∀ (cs : List String) (st : WalkState) (r : WalkOut),
      walkChildren walkF cs st = some r → Extends fetch st r := by
  intro cs
  induction cs with
  | nil =>
    intro st r h
    simp only [walkChildren] at h
    injection h with h
    subst h
    exact ⟨⟨[], by simp [WalkOut.state]⟩, [], by simp [WalkOut.state], okTrace_nil fetch⟩
  | cons c rest ih =>
    intro st r h
    simp only [walkChildren] at h
    by_cases hc : c ∈ st.seen
    · rw [if_pos hc] at h
      exact ih st r h
    · rw [if_neg hc] at h
      cases hwc : walkF c st with
      | none =>
        rw [hwc] at h
        exact absurd h (by simp)
      | some r1 =>
        rw [hwc] at h
        cases r1 with
        | err s1 =>
          simp at h
          subst h
          exact hw c st (WalkOut.err s1) hwc
        | ok s1 =>
          exact extends_trans_ok fetch st s1 r (hw c st (WalkOut.ok s1) hwc) (ih s1 r h)

/-- Every walk outcome extends its starting state. -/
theorem walk_extends (fetch : String → FetchR) :
    ∀ (fuel : Nat) (k : String) (st : WalkState) (r : WalkOut),
      walk fetch fuel k st = some r → Extends fetch st r := by
  intro fuel
  induction fuel with
  | zero =>
    intro k st r h
    exact absurd h (by simp [walk])
  | succ n ih =>
    intro k st r h
    simp only [walk] at h
    split at h
    case h_1 heq =>
      simp at h
      subst h
      exact ⟨⟨[], by simp [WalkOut.state]⟩, [k], by simp [WalkOut.state],
        [], k, rfl, okTrace_nil fetch, by simp [isOkF, heq]⟩
    case h_2 heq =>
      simp at h
      subst h
      exact ⟨⟨[], by simp [WalkOut.state]⟩, [k], by simp [WalkOut.state],
        [], k, rfl, okTrace_nil fetch, by simp [isOkF, heq]⟩
    case h_3 issue heq =>
      have h2 := walkChildren_extends fetch _ (fun c s r' hh => ih c s r' hh) _ _ r h
      refine extends_trans_ok fetch st _ r ⟨⟨[k], ?_⟩, [k], ?_, ?_⟩ h2
      · simp [WalkOut.state]
      · simp [WalkOut.state]
      · intro x hx
        simp at hx
        subst hx
        simp [isOkF, heq]

/-- The walk invariant: the fetch trace is duplicate-free and every fetched key
has been recorded in `seen`. -/
def Inv (st : WalkState) : Prop := st.trace.Nodup ∧ ∀ x ∈ st.trace, x ∈ st.seen

/-- What an outcome guarantees: a normal return re-establishes the invariant;
an aborted walk still has a duplicate-free trace. -/
def InvOut : WalkOut → Prop
  | WalkOut.ok st => Inv st
  | WalkOut.err st => st.trace.Nodup

theorem nodup_snoc (l : List String) (k : String) (h1 : l.Nodup) (h2 : k ∉ l) :
    (l ++ [k]).Nodup := by
  simp [List.nodup_append, h1, h2]

/-- The child loop preserves the invariant, given that each recursive call
does when started on an unseen key. -/
theorem walkChildren_inv (walkF : String → WalkState → Option WalkOut)
    (hw : ∀ c s r, c ∉ s.seen → Inv s → walkF c s = some r → InvOut r) :
    ∀ (cs : List String) (st : WalkState) (r : WalkOut),
      Inv st → walkChildren walkF cs st = some r → InvOut r := by
  intro cs
  induction cs with
  | nil =>
    intro st r hInv h
    simp only [walkChildren] at h
    injection h with h
    subst h
    exact hInv
  | cons c rest ih =>
    intro st r hInv h
    simp only [walkChildren] at h
    by_cases hc : c ∈ st.seen
    · rw [if_pos hc] at h
      exact ih st r hInv h
    · rw [if_neg hc] at h
      cases hwc : walkF c st with
      | none =>
        rw [hwc] at h
        exact absurd h (by simp)
      | some r1 =>
        rw [hwc] at h
        cases r1 with
        | err s1 =>
          simp at h
          subst h
          exact hw c st (WalkOut.err s1) hc hInv hwc
        | ok s1 =>
          exact ih s1 r (hw c st (WalkOut.ok s1) hc hInv hwc) h

/-- A walk started on an unseen key from an invariant state yields an
invariant outcome: in particular its fetch trace stays duplicate-free. -/
theorem walk_inv (fetch : String → FetchR) :
    ∀ (fuel : Nat) (k : String) (st : WalkState) (r : WalkOut),
      k ∉ st.seen → Inv st → walk fetch fuel k st = some r → InvOut r := by
  intro fuel
  induction fuel with
  | zero =>
    intro k st r hk hInv h
    exact absurd h (by simp [walk])
  | succ n ih =>
    intro k st r hk hInv h
    have hktr : k ∉ st.trace := fun hmem => hk (hInv.2 k hmem)
    simp only [walk] at h
    split at h
    case h_1 heq =>
      simp at h
      subst h
      exact nodup_snoc st.trace k hInv.1 hktr
    case h_2 heq =>
      simp at h
      subst h
      exact nodup_snoc st.trace k hInv.1 hktr
    case h_3 issue heq =>
      refine walkChildren_inv _ (fun c s r' hc hi hh => ih c s r' hc hi hh) _ _ r
        ⟨nodup_snoc st.trace k hInv.1 hktr, ?_⟩ h
      intro x hx
      rcases List.mem_append.mp hx with hx | hx
      · exact List.mem_append_left _ (hInv.2 x hx)
      · exact List.mem_append_right _ hx

/-! ## Fuel sufficiency: the walk terminates on any finite tracker (C2) -/

/-- The number of tracker keys not yet seen; the walk's termination measure. -/
def unseenCount (world : List Issue) (seen : List String) : Nat :=
  ((world.map Issue.key).filter (fun x => decide (x ∉ seen))).length

theorem length_filter_le_of_imp {α : Type} (l : List α) (p q : α → Bool)
    (h : ∀ a, p a = true → q a = true) :
    (l.filter p).length ≤ (l.filter q).length := by
  induction l with
  | nil => simp
  | cons a t ih =>
    by_cases hp : p a = true
    · rw [List.filter_cons_of_pos hp, List.filter_cons_of_pos (h a hp)]
      simpa using ih
    · rw [List.filter_cons_of_neg (by simpa using hp)]
      by_cases hq : q a = true
      · rw [List.filter_cons_of_pos hq]
        exact Nat.le_succ_of_le ih
      · rw [List.filter_cons_of_neg (by simpa using hq)]
        exact ih

theorem unseenCount_append_le (world : List Issue) (s t : List String) :
    unseenCount world (s ++ t) ≤ unseenCount world s := by
  apply length_filter_le_of_imp
  intro a ha
  simp only [decide_eq_true_eq] at ha ⊢
  intro hmem
  exact ha (List.mem_append_left _ hmem)

theorem filter_snoc_lt (l s : List String) (k : String) (hk : k ∈ l) (hns : k ∉ s) :
    (l.filter (fun x => decide (x ∉ s ++ [k]))).length <
      (l.filter (fun x => decide (x ∉ s))).length := by
  induction l with
  | nil => cases hk
  | cons a t ih =>
    by_cases hak : a = k
    · subst hak
      rw [List.filter_cons_of_neg (by simp), List.filter_cons_of_pos (by simp [hns])]
      have hle := length_filter_le_of_imp t (fun x => decide (x ∉ s ++ [a]))
        (fun x => decide (x ∉ s)) ?_
      · simpa using Nat.lt_succ_of_le hle
      · intro x hx
        simp only [decide_eq_true_eq] at hx ⊢
        intro hmem
        exact hx (List.mem_append_left _ hmem)
    · have hkt : k ∈ t := by
        rcases List.mem_cons.mp hk with h | h
        · exact absurd h.symm hak
        · exact h
      have hlt := ih hkt
      by_cases has : a ∈ s
      · rw [List.filter_cons_of_neg (by simp [has]), List.filter_cons_of_neg (by simp [has])]
        exact hlt
      · rw [List.filter_cons_of_pos (by simp [has, hak]), List.filter_cons_of_pos (by simp [has])]
        simpa using hlt

theorem unseenCount_snoc_lt (world : List Issue) (s : List String) (k : String)
    (hk : k ∈ world.map Issue.key) (hns : k ∉ s) :
    unseenCount world (s ++ [k]) < unseenCount world s :=
  filter_snoc_lt (world.map Issue.key) s k hk hns

theorem unseenCount_le_length (world : List Issue) (s : List String) :
    unseenCount world s ≤ world.length := by
  calc ((world.map Issue.key).filter _).length
      ≤ (world.map Issue.key).length := List.length_filter_le _ _
    _ = world.length := List.length_map _ _

theorem fetchIssue_ok_mem (world : List Issue) (k : String) (issue : Issue)
    (h : fetchIssue world k = FetchR.ok issue) : k ∈ world.map Issue.key := by
  unfold fetchIssue at h
  cases hf : world.find? (fun i => decide (i.key = k)) with
  | none =>
    rw [hf] at h
    exact absurd h (by simp)
  | some i =>
    have hkey : i.key = k := by
      have := List.find?_some hf
      simpa using this
    have hmem : i ∈ world := List.mem_of_find?_eq_some hf
    exact hkey ▸ List.mem_map_of_mem Issue.key hmem

/-- The child loop never exhausts fuel, given that each recursive call does
not (below the bound) and only grows `seen`. -/
theorem walkChildren_some (world : List Issue) (n : Nat)
    (walkF : String → WalkState → Option WalkOut)
    (hw : ∀ c s, c ∉ s.seen → unseenCount world s.seen < n → walkF c s ≠ none)
    (hx : ∀ c s r, walkF c s = some r → ∃ sx, (WalkOut.state r).seen = s.seen ++ sx) :
    ∀ (cs : List String) (st : WalkState),
      unseenCount world st.seen < n → walkChildren walkF cs st ≠ none := by
  intro cs
  induction cs with
  | nil =>
    intro st hlt h
    simp [walkChildren] at h
  | cons c rest ih =>
    intro st hlt h
    simp only [walkChildren] at h
    by_cases hc : c ∈ st.seen
    · rw [if_pos hc] at h
      exact ih st hlt h
    · rw [if_neg hc] at h
      cases hwc : walkF c st with
      | none => exact hw c st hc hlt hwc
      | some r1 =>
        rw [hwc] at h
        cases r1 with
        | err s1 => simp at h
        | ok s1 =>
          obtain ⟨sx, hs⟩ := hx c st (WalkOut.ok s1) hwc
          simp only [WalkOut.state] at hs
          have hle : unseenCount world s1.seen ≤ unseenCount world st.seen := by
            rw [hs]
            exact unseenCount_append_le world st.seen sx
          exact ih s1 (lt_of_le_of_lt hle hlt) h

/-- With fuel strictly above the number of unseen tracker keys, the walk never
exhausts it. -/
theorem walk_some (world : List Issue) :
    ∀ (fuel : Nat) (k : String) (st : WalkState), k ∉ st.seen →
      unseenCount world st.seen < fuel → walk (fetchIssue world) fuel k st ≠ none := by
  intro fuel
  induction fuel with
  | zero =>
    intro k st hk hlt
    exact absurd hlt (Nat.not_lt_zero _)
  | succ n ih =>
    intro k st hk hlt h
    simp only [walk] at h
    split at h
    case h_1 heq => exact absurd h (by simp)
    case h_2 heq => exact absurd h (by simp)
    case h_3 issue heq =>
      have hkmem := fetchIssue_ok_mem world k issue heq
      have hlt2 : unseenCount world (st.seen ++ [k]) < n := by
        have hstr := unseenCount_snoc_lt world st.seen k hkmem hk
        omega
      exact walkChildren_some world n _
        (fun c s hc hl => ih c s hc hl)
        (fun c s r hh => (walk_extends (fetchIssue world) n c s r hh).1)
        _ _ hlt2 h

/-- C2: on any tracker (cyclic link structures included) the walk with fuel
one above the tracker's issue count never exhausts it — i.e. the recursion
terminates within the depth bounded by the finite key space — and however the
walk ends, its fetch trace is duplicate-free: every key it reaches is fetched
exactly once, no matter how many distinct link paths lead to it. -/
theorem walk_terminates_and_fetches_each_key_once (world : List Issue) (startKey : String)
    (g : Graph) :
    walk (fetchIssue world) (world.length + 1) startKey ⟨g, [], []⟩ ≠ none ∧
    (∀ r, walk (fetchIssue world) (world.length + 1) startKey ⟨g, [], []⟩ = some r →
      (WalkOut.state r).trace.Nodup) := by
  constructor
  · apply walk_some world (world.length + 1) startKey ⟨g, [], []⟩ (by simp)
    show unseenCount world [] < world.length + 1
    have := unseenCount_le_length world []
    omega
  · intro r h
    have hIO := walk_inv (fetchIssue world) (world.length + 1) startKey ⟨g, [], []⟩ r
      (by simp) ⟨List.nodup_nil, by simp⟩ h
    cases r with
    | ok st => exact hIO.1
    | err st => exact hIO

/-- The graph the walk builds on `cycleWorld` starting from an empty graph. -/
def cycleResultGraph : Graph :=
  ⟨none,
   [⟨"DEMO-2", ⟨some "filled", some "DEMO-2\ntwo", some "2.0", none, none⟩⟩,
    ⟨"DEMO-1", ⟨some "filled", some "DEMO-1\none", some "2.0", none, none⟩⟩],
   [⟨"DEMO-1", "DEMO-2", some "blocks", none, none⟩,
    ⟨"DEMO-2", "DEMO-1", some "is blocked by", none, none⟩]⟩

/-- Witness for C2 on the cyclic two-issue tracker: the walk completes and its
fetch trace is exactly one fetch per reachable key. -/
theorem walk_terminates_witness :
    (WalkOut.state (WalkOut.ok
      ⟨cycleResultGraph, ["DEMO-1", "DEMO-2"], ["DEMO-1", "DEMO-2"]⟩)).trace.Nodup :=
  (walk_terminates_and_fetches_each_key_once cycleWorld "DEMO-1" ⟨none, [], []⟩).2
    (WalkOut.ok ⟨cycleResultGraph, ["DEMO-1", "DEMO-2"], ["DEMO-1", "DEMO-2"]⟩) (by decide)

/-- C5: however a walk from a fresh state ends, (a) a normal completion means
every fetch along the way succeeded — so a raising fetch anywhere makes the
whole walk abort with a propagated failure rather than complete; (b) an
aborted walk's trace is a run of successful fetches ended by the single
failing one, with nothing fetched afterwards — the failure is not isolated to
one node and no traversal of remaining keys happens; (c) the trace is
duplicate-free — every fetch is attempted at most once, with no retry. -/
theorem walk_aborts_on_fetch_failure (fetch : String → FetchR) (fuel : Nat) (k : String)
    (g : Graph) (r : WalkOut) (h : walk fetch fuel k ⟨g, [], []⟩ = some r) :
    (∀ st', r = WalkOut.ok st' → ∀ x ∈ st'.trace, isOkF (fetch x) = true) ∧
    (∀ st', r = WalkOut.err st' → ∃ pre q, st'.trace = pre ++ [q] ∧
      (∀ x ∈ pre, isOkF (fetch x) = true) ∧ isOkF (fetch q) = false) ∧
    (WalkOut.state r).trace.Nodup := by
  have hx := walk_extends fetch fuel k ⟨g, [], []⟩ r h
  have hIO := walk_inv fetch fuel k ⟨g, [], []⟩ r (by simp) ⟨List.nodup_nil, by simp⟩ h
  obtain ⟨-, tx, htx, hm⟩ := hx
  refine ⟨?_, ?_, ?_⟩
  · intro st' hr x hxm
    subst hr
    simp only [WalkOut.state, List.nil_append] at htx
    exact hm x (htx ▸ hxm)
  · intro st' hr
    subst hr
    simp only [WalkOut.state, List.nil_append] at htx
    obtain ⟨pre, q, he, hp, hq⟩ := hm
    exact ⟨pre, q, htx.trans he, hp, hq⟩
  · cases r with
    | ok st => exact hIO.1
    | err st => exact hIO

/-- A fetcher that succeeds on DEMO-1 (whose issue links outward to DEMO-2)
and raises on every other key. -/
def failFetch : String → FetchR := fun k =>
  if k = "DEMO-1" then
    FetchR.ok ⟨"DEMO-1", ⟨"one", ⟨"To Do"⟩, [outwardLink "DEMO-2" "two" "blocks"], []⟩⟩
  else FetchR.raise

/-- The state in which the walk under `failFetch` aborts. -/
def failState : WalkState :=
  ⟨⟨none,
    [⟨"DEMO-2", ⟨some "filled", some "DEMO-2\ntwo", some "2.0", none, none⟩⟩,
     ⟨"DEMO-1", emptyAttrs⟩],
    [⟨"DEMO-1", "DEMO-2", some "blocks", none, none⟩]⟩,
   ["DEMO-1"], ["DEMO-1", "DEMO-2"]⟩

/-- Witness for C5: under `failFetch` the walk aborts at DEMO-2, the first and
only failing fetch, after the one successful fetch of DEMO-1. -/
theorem walk_aborts_witness :
    ∃ pre q, failState.trace = pre ++ [q] ∧
      (∀ x ∈ pre, isOkF (failFetch x) = true) ∧ isOkF (failFetch q) = false :=
  (walk_aborts_on_fetch_failure failFetch 3 "DEMO-1" ⟨none, [], []⟩
    (WalkOut.err failState) (by decide)).2.1 failState rfl

/-! ## Epic shapes (C8) -/

/-- Find a node by name. -/
def lookupNode (g : Graph) (name : String) : Option Node :=
  g.nodes.find? (fun n => decide (n.name = name))

/-- Set the epic marker shape on a node. -/
def setFolder (n : Node) : Node := { n with attrs := { n.attrs with shape := some "folder" } }

/-- C8 counterexample: in a finished run with epic expansion enabled, node
DEMO-9 — added by the Epic Expander, and for which the epic probe succeeds —
does NOT have the folder shape (the shape pass ran before the expander); and
in a run whose start issue is not an epic, the start node has the folder
shape even though its probe fails (it is created with that shape). -/
theorem epic_shape_pass_counterexample :
    (main_run [issueNoLinks "DEMO-0" "epic" "Done", issueNoLinks "DEMO-9" "nine" "To Do"]
        (fun k => decide (k = "DEMO-0") || decide (k = "DEMO-9"))
        (some ⟨[issueNoLinks "DEMO-9" "nine" "To Do"]⟩) true "DEMO-0").map
      (fun g => g.nodes.map (fun n => (n.name, n.attrs.shape)))
      = some [("DEMO-0", some "folder"), ("DEMO-9", none)] ∧
    (main_run [issueNoLinks "DEMO-1" "one" "To Do"] (fun _ => false) none false "DEMO-1").map
      (fun g => g.nodes.map (fun n => (n.name, n.attrs.shape)))
      = some [("DEMO-1", some "folder")] := by decide

theorem keyInEdges_false (k : String) (es : List Edge) : keyInEdges k es = false := by
  simp [keyInEdges, pyStrEqEdge]

/-- A graph operation that preserves every existing node's shape (matching by
name) and gives new nodes no shape. -/
def ShapePres (g g' : Graph) : Prop :=
  ∀ n ∈ g'.nodes,
    (∃ m ∈ g.nodes, m.name = n.name ∧ m.attrs.shape = n.attrs.shape) ∨ n.attrs.shape = none

theorem shapePres_of_nodes_eq {g g' : Graph} (h : g'.nodes = g.nodes) : ShapePres g g' := by
  intro n hn
  rw [h] at hn
  exact Or.inl ⟨n, hn, rfl, rfl⟩

theorem shapePres_trans {g1 g2 g3 : Graph} (h12 : ShapePres g1 g2) (h23 : ShapePres g2 g3) :
    ShapePres g1 g3 := by
  intro n hn
  rcases h23 n hn with ⟨m, hm, hname, hshape⟩ | hnone
  · rcases h12 m hm with ⟨m0, hm0, hname0, hshape0⟩ | hnone2
    · exact Or.inl ⟨m0, hm0, hname0.trans hname, hshape0.trans hshape⟩
    · exact Or.inr (hshape ▸ hnone2)
  · exact Or.inr hnone

theorem shapePres_add_node (g : Graph) (name : String) (u : NodeAttrs) (hu : u.shape = none) :
    ShapePres g (add_node g name u) := by
  intro n hn
  unfold add_node at hn
  dsimp only at hn
  split at hn
  · rcases List.mem_map.mp hn with ⟨m, hm, hmn⟩
    by_cases h : m.name = name
    · rw [if_pos h] at hmn
      refine Or.inl ⟨m, hm, ?_, ?_⟩
      · rw [← hmn]
      · rw [← hmn]
        simp [applyUpdate, override, hu]
    · rw [if_neg h] at hmn
      subst hmn
      exact Or.inl ⟨m, hm, rfl, rfl⟩
  · rcases List.mem_append.mp hn with hm | hm
    · exact Or.inl ⟨n, hm, rfl, rfl⟩
    · simp at hm
      subst hm
      exact Or.inr (by simp [applyUpdate, override, hu, emptyAttrs])

theorem shapePres_ensure_node (g : Graph) (name : String) :
    ShapePres g (ensure_node g name) := by
  intro n hn
  unfold ensure_node at hn
  split at hn
  · exact Or.inl ⟨n, hn, rfl, rfl⟩
  · rcases List.mem_append.mp hn with hm | hm
    · exact Or.inl ⟨n, hm, rfl, rfl⟩
    · simp at hm
      subst hm
      exact Or.inr rfl

theorem shapePres_add_edge (g : Graph) (u v : String) (l c p : Option String) :
    ShapePres g (add_edge g u v l c p) := by
  apply shapePres_trans (shapePres_trans (shapePres_ensure_node g u)
    (shapePres_ensure_node (ensure_node g u) v))
  apply shapePres_of_nodes_eq
  simp only [add_edge]

theorem shapePres_expander (epic : EpicPayload) (k : String) :
    ∀ g : Graph, ShapePres g (add_issues_to_graph g epic k) := by
  unfold add_issues_to_graph
  induction epic.issues with
  | nil => exact fun g => shapePres_of_nodes_eq rfl
  | cons i rest ih =>
    intro g
    rw [List.foldl_cons, keyInEdges_false]
    simp only [Bool.false_eq_true, if_false]
    exact shapePres_trans
      (shapePres_trans (shapePres_add_node g i.key ⟨some "filled", none, some "2.0", none, none⟩ rfl)
        (shapePres_add_edge _ k i.key none (some "blue") (some "0.5")))
      (ih _)

/-- C8 amended: the epic-shape pass — which the program runs BEFORE epic
expansion — maps each node it finds to the folder shape exactly when its probe
succeeds, and otherwise leaves the node exactly as it was (the start node
already carries the folder shape from its creation); nodes added afterwards by
the Epic Expander are never probed: every node of the expanded graph either
keeps the shape of a same-named node already present, or is a new node with no
shape set at all. -/
theorem epic_shape_pass_amended :
    (∀ (p : String → Bool) (g : Graph) (name : String),
      lookupNode (update_shape_on_epics p g) name =
        (lookupNode g name).map (fun n => if p n.name then setFolder n else n)) ∧
    (∀ (g : Graph) (epic : EpicPayload) (k : String) (n : Node),
      n ∈ (add_issues_to_graph g epic k).nodes →
      (∃ m ∈ g.nodes, m.name = n.name ∧ m.attrs.shape = n.attrs.shape) ∨
        n.attrs.shape = none) := by
  constructor
  · intro p g name
    unfold lookupNode update_shape_on_epics
    dsimp only
    induction g.nodes with
    | nil => rfl
    | cons n rest ih =>
      rw [List.map_cons]
      simp only [List.find?]
      rw [mark_name p n]
      by_cases h : n.name = name
      · rw [decide_eq_true h]
        rfl
      · rw [decide_eq_false h]
        exact ih
  · exact fun g epic k => shapePres_expander epic k g

/-- Witness for C8 amended: in the expanded graph of the duplicate-edge
scenario, the node DEMO-1 the expander touched has no shape set. -/
theorem epic_shape_pass_amended_witness :
    (∃ m ∈ startGraphD0.nodes,
      m.name = (Node.mk "DEMO-1" ⟨some "filled", none, some "2.0", none, none⟩).name ∧
      m.attrs.shape = (Node.mk "DEMO-1" ⟨some "filled", none, some "2.0", none, none⟩).attrs.shape) ∨
    (Node.mk "DEMO-1" ⟨some "filled", none, some "2.0", none, none⟩).attrs.shape = none :=
  epic_shape_pass_amended.2 startGraphD0 dupEpicPayload "DEMO-0"
    (Node.mk "DEMO-1" ⟨some "filled", none, some "2.0", none, none⟩) (by decide)

/-! ## The single-issue end-to-end run (C9) -/

/-- C9 counterexample: for a start issue with no links and no subtasks the
finished graph's single node carries the folder shape — not the default
shape the claim requires. -/
theorem single_issue_run_counterexample :
    (main_run [issueNoLinks "DEMO-1" "one" "Done"] (fun _ => false) none false "DEMO-1").map
      (fun g => g.nodes.map (fun n => (n.name, n.attrs.shape, n.attrs.fillcolor)))
      = some [("DEMO-1", some "folder", some "green")] := by decide

theorem shape_pass_folder_singleton (p : String → Bool) (lbl : Option String) (k : String) :
    update_shape_on_epics p ⟨lbl, [⟨k, startAttrs⟩], []⟩ = ⟨lbl, [⟨k, startAttrs⟩], []⟩ := by
  unfold update_shape_on_epics
  cases hp : p k <;> simp [hp, startAttrs]

/-- C9 amended: for a start issue DEMO-1 with no links and no subtasks, and any
status, the end-to-end run produces a graph with exactly one node, the start
key, carrying the folder shape (the start node is always created with it, and
the probe cannot remove it) and the fill color that the status chain assigns
to the issue's status. -/
theorem single_issue_run_amended (statusName : String) (p : String → Bool) :
    main_run [issueNoLinks "DEMO-1" "one" statusName] p none false "DEMO-1" =
      some ⟨some "Dependency Graph for DEMO-1",
            [⟨"DEMO-1", applyProgress statusName startAttrs⟩], []⟩ := by
  have h1 : main_run [issueNoLinks "DEMO-1" "one" statusName] p none false "DEMO-1" =
      update_graph_with_issue_progress (fetchIssue [issueNoLinks "DEMO-1" "one" statusName])
        (update_shape_on_epics p
          ⟨some ("Dependency Graph for " ++ "DEMO-1"), [⟨"DEMO-1", startAttrs⟩], []⟩) := rfl
  rw [h1, shape_pass_folder_singleton]
  rfl

end Jiradep
